import Mathlib

/-!
Verification of the auxmos gas-mixture core.

This file shallowly embeds the gas-mixture value type of
`crates/auxmos/src/gas/mixture.rs` (the dense `Mixture`), the host hooks of
`src/lib.rs`, and the slot-recycling `Arena` of `src/gas.rs` into Lean.
`f32` arithmetic is idealised as exact rational arithmetic; machine-float
rounding, infinities and subnormals are outside the model, and `is_normal`
is idealised as being nonzero.  The per-mixture heat-capacity cache
(`GasCache`, an atomic `f32` whose NaN value is the "invalid" sentinel) is
modelled as an `Option ℚ` field, `none` being the sentinel.  Operations that
in Rust mutate through `&mut self` (or through the interior-mutable cache)
become functions returning the updated value.  The read-mostly gas registry
is passed explicitly: `heats` is the specific-heat table, and its length
plays the role of `total_num_gases()`.
-/

/-- Modelled from the spec: the constants module of the repository is not in
the sources provided.  `GAS_MIN_MOLES` is the small positive threshold below
which a mole count is treated as zero; the value used here is 5·10⁻⁸. -/
def GAS_MIN_MOLES : ℚ := 1 / 20000000

/-- Modelled from the spec: `MINIMUM_HEAT_CAPACITY` is the threshold below
which temperature-affecting operations are skipped; value 3·10⁻⁴. -/
def MINIMUM_HEAT_CAPACITY : ℚ := 3 / 10000

/-- Modelled from the spec: `TCMB`, the cosmic microwave background
temperature, ≈ 2.7 K, used as the temperature floor. -/
def TCMB : ℚ := 27 / 10

/-- Modelled from the spec: the minimum temperature difference for
`temperature_share` to act at all. -/
def MINIMUM_TEMPERATURE_DELTA_TO_CONSIDER : ℚ := 1 / 2

/-- Idealisation of `f32::is_normal` in exact rational arithmetic: zero is
the one representable non-normal value (subnormals, infinities and NaN do
not exist in the idealised arithmetic). -/
def isNormal (q : ℚ) : Bool := decide (q ≠ 0)

/-- The gas-parcel value type of `mixture.rs` (`pub struct Mixture`), fields
in source order.  `cached_heat_capacity` is the `GasCache`: `none` models
the NaN "invalid" sentinel. -/
structure Mixture where
  temperature : ℚ
  volume : ℚ
  min_heat_capacity : ℚ
  moles : List ℚ
  cached_heat_capacity : Option ℚ
  immutable : Bool
deriving DecidableEq

/-- `Mixture::new()`: empty moles, temperature 2.7, volume 2500,
no minimum heat capacity, mutable, cache invalid. -/
def Mixture.new : Mixture :=
  { temperature := 27 / 10
    volume := 2500
    min_heat_capacity := 0
    moles := []
    cached_heat_capacity := none
    immutable := false }

/-- `Mixture::get_moles(idx)`: the amount at `idx`, `0.0` out of range. -/
def Mixture.get_moles (m : Mixture) (idx : ℕ) : ℚ := m.moles.getD idx 0

/-- `Mixture::total_moles()`: sum of the dense vector. -/
def Mixture.total_moles (m : Mixture) : ℚ := m.moles.sum

/-- `Mixture::maybe_expand(size)` on the moles vector: grow with zeros to
`size` when shorter. -/
def expand (xs : List ℚ) (n : ℕ) : List ℚ :=
  if xs.length < n then xs ++ List.replicate (n - xs.length) 0 else xs

/-- The element-wise `+=` loop of `Mixture::merge`: `zip(self.iter_mut(),
giver.iter())` adds the giver's entries into the first list, leaving the
first list's tail beyond the giver's length untouched. -/
def addMoles : List ℚ → List ℚ → List ℚ
  | xs, [] => xs
  | [], _ => []
  | x :: xs, y :: ys => (x + y) :: addMoles xs ys

/-- The body of the zeroing pass of `Mixture::garbage_collect`: entries not
above `GAS_MIN_MOLES` are rewritten to `0.0`. -/
def zeroSmall (a : ℚ) : ℚ := if GAS_MIN_MOLES < a then a else 0

/-- The `last_valid_found` accumulator of `Mixture::garbage_collect`:
index of the last entry above `GAS_MIN_MOLES`, `0` when there is none.
First argument is the running index, second the accumulator. -/
def lastValidAux : ℕ → ℕ → List ℚ → ℕ
  | _, acc, [] => acc
  | i, acc, a :: as => lastValidAux (i + 1) (if GAS_MIN_MOLES < a then i else acc) as

/-- `Mixture::garbage_collect` on the moles vector: zero every entry not
above `GAS_MIN_MOLES`, then truncate to `last_valid_found + 1`. -/
def gcList (xs : List ℚ) : List ℚ :=
  (xs.map zeroSmall).take (lastValidAux 0 0 xs + 1)

/-- `Mixture::garbage_collect`. -/
def Mixture.garbage_collect (m : Mixture) : Mixture :=
  { m with moles := gcList m.moles }

/-- `Mixture::set_temperature(temp)`: stores only when the mix is mutable
and the value is normal. -/
def Mixture.set_temperature (m : Mixture) (temp : ℚ) : Mixture :=
  if !m.immutable && isNormal temp then { m with temperature := temp } else m

/-- `Mixture::set_min_heat_capacity(amt)`: note the absence of any
immutability guard in the source. -/
def Mixture.set_min_heat_capacity (m : Mixture) (amt : ℚ) : Mixture :=
  { m with min_heat_capacity := amt }

/-- The `_set_volume_hook` of `lib.rs` writes the public `volume` field
directly, with no immutability guard. -/
def Mixture.set_volume (m : Mixture) (v : ℚ) : Mixture :=
  { m with volume := v }

/-- `Mixture::mark_immutable()`. -/
def Mixture.mark_immutable (m : Mixture) : Mixture :=
  { m with immutable := true }

/-- `Mixture::set_moles(idx, amt)`: assigns only when the mix is mutable,
`idx < total_num_gases()`, and either `idx <= moles.len()` or the amount is
above `GAS_MIN_MOLES` and normal; then grows to `idx+1`, assigns, and
invalidates the heat-capacity cache. -/
def Mixture.set_moles (numGases : ℕ) (m : Mixture) (idx : ℕ) (amt : ℚ) : Mixture :=
  if !m.immutable && decide (idx < numGases) &&
      (decide (idx ≤ m.moles.length) || (decide (GAS_MIN_MOLES < amt) && isNormal amt)) then
    { m with moles := (expand m.moles (idx + 1)).set idx amt
             cached_heat_capacity := none }
  else m

/-- `Mixture::adjust_moles(idx, amt)`: guarded by mutability, normality of
the delta and `idx < total_num_gases()`; adds, garbage-collects when the
delta is nonpositive, and invalidates the cache. -/
def Mixture.adjust_moles (numGases : ℕ) (m : Mixture) (idx : ℕ) (amt : ℚ) : Mixture :=
  if !m.immutable && isNormal amt && decide (idx < numGases) then
    let moles1 := expand m.moles (idx + 1)
    let m1 := { m with moles := moles1.set idx (moles1.getD idx 0 + amt) }
    let m2 := if amt ≤ 0 then m1.garbage_collect else m1
    { m2 with cached_heat_capacity := none }
  else m

/-- `Mixture::adjust_multi(adjustments)`: one expansion to past the largest
valid index, one pass applying every valid adjustment, one cache
invalidation when anything applied, at most one garbage collection. -/
def Mixture.adjust_multi (numGases : ℕ) (m : Mixture) (adjs : List (ℕ × ℚ)) : Mixture :=
  if m.immutable then m
  else
    let valid : ℕ × ℚ → Bool := fun p => decide (p.1 < numGases) && isNormal p.2
    let size := ((adjs.filterMap fun p =>
        if p.1 < numGases then some p.1 else none).foldl max 0) + 1
    let moles0 := expand m.moles size
    let dirty := adjs.any valid
    let should := adjs.any fun p => valid p && decide (p.2 ≤ 0)
    let moles1 := adjs.foldl
      (fun ms p => if valid p then ms.set p.1 (ms.getD p.1 0 + p.2) else ms) moles0
    let m1 := { m with moles := moles1
                       cached_heat_capacity :=
                         if dirty then none else m.cached_heat_capacity }
    if should then m1.garbage_collect else m1

/-- The fold of `Mixture::slow_heat_capacity`: `Σ moles[i]·specific_heat[i]`
over the zipped prefix. -/
def dot (moles heats : List ℚ) : ℚ := (List.zipWith (fun a c => a * c) moles heats).sum

/-- `Mixture::slow_heat_capacity()`: the fold, floored by
`min_heat_capacity`. -/
def slow_heat_capacity (heats : List ℚ) (m : Mixture) : ℚ :=
  max (dot m.moles heats) m.min_heat_capacity

/-- `Mixture::heat_capacity()`: consult the cache; when invalid, compute and
install.  Returns the value together with the mixture (whose cache may have
been filled through the interior-mutable `GasCache`). -/
def heat_capacity (heats : List ℚ) (m : Mixture) : ℚ × Mixture :=
  match m.cached_heat_capacity with
  | some v => (v, m)
  | none =>
    let v := slow_heat_capacity heats m
    (v, { m with cached_heat_capacity := some v })

/-- `Mixture::thermal_energy()` = `heat_capacity() * temperature`. -/
def thermal_energy (heats : List ℚ) (m : Mixture) : ℚ × Mixture :=
  let p := heat_capacity heats m
  (p.1 * p.2.temperature, p.2)

/-- `Mixture::clear()`: empties the moles and invalidates the cache, when
mutable. -/
def Mixture.clear (m : Mixture) : Mixture :=
  if m.immutable then m
  else { m with moles := [], cached_heat_capacity := none }

/-- `Mixture::multiply(multiplier)`: scale every entry, invalidate the
cache, garbage-collect, when mutable. -/
def Mixture.multiply (m : Mixture) (k : ℚ) : Mixture :=
  if m.immutable then m
  else Mixture.garbage_collect
    { m with moles := m.moles.map fun a => a * k
             cached_heat_capacity := none }

/-- `Mixture::copy_from_mutable(sample)`: copies moles, temperature and the
heat-capacity cache, when mutable. -/
def Mixture.copy_from_mutable (m sample : Mixture) : Mixture :=
  if m.immutable then m
  else { m with moles := sample.moles
                temperature := sample.temperature
                cached_heat_capacity := sample.cached_heat_capacity }

/-- `Mixture::merge(giver)`: early return when immutable; otherwise read
both heat capacities, expand to the giver's length, add element-wise, set
the heat-weighted average temperature when the combined capacity is above
`MINIMUM_HEAT_CAPACITY`, and install the combined capacity into the cache.
The second component is the giver, whose interior-mutable cache the
capacity read may have filled. -/
def Mixture.merge (heats : List ℚ) (m giver : Mixture) : Mixture × Mixture :=
  if m.immutable then (m, giver)
  else
    let p := heat_capacity heats m
    let q := heat_capacity heats giver
    let m2 := { p.2 with moles := addMoles (expand p.2.moles q.2.moles.length) q.2.moles }
    let combined := p.1 + q.1
    let m3 :=
      if MINIMUM_HEAT_CAPACITY < combined then
        m2.set_temperature ((p.1 * m2.temperature + q.1 * q.2.temperature) / combined)
      else m2
    ({ m3 with cached_heat_capacity := some combined }, q.2)

/-- `Mixture::remove_ratio_into(ratio, into)`: early return when the ratio
is nonpositive; clamp to 1; copy self into `into`; scale `into` by the
ratio; scale self by one minus the ratio.  Returns (self, into). -/
def Mixture.remove_ratio_into (m : Mixture) (ratio : ℚ) (into : Mixture) :
    Mixture × Mixture :=
  if ratio ≤ 0 then (m, into)
  else
    let r := if 1 ≤ ratio then 1 else ratio
    let into1 := into.copy_from_mutable m
    let into2 := into1.multiply r
    let m1 := m.multiply (1 - r)
    (m1, into2)

/-- `Mixture::transfer_gases_to(r, gases, into)`: clamp the ratio to [0,1],
record the destination's thermal energy, move `moles[i]·ratio` of every
listed gas while accumulating the transferred heat, invalidate both caches,
and set the destination temperature from the energy balance. -/
def transfer_gases_to (heats : List ℚ) (m into : Mixture) (r : ℚ)
    (gases : List ℕ) : Mixture × Mixture :=
  let ratio := min (max r 0) 1
  let p := thermal_energy heats into
  let step : List ℚ × Mixture × ℚ → ℕ → List ℚ × Mixture × ℚ := fun st i =>
    if i < st.1.length then
      let delta := st.1.getD i 0 * ratio
      (st.1.set i (st.1.getD i 0 - delta),
        Mixture.adjust_moles heats.length st.2.1 i delta,
        st.2.2 + delta * m.temperature * heats.getD i 0)
    else st
  let fin := gases.foldl step (m.moles, p.2, 0)
  let m1 := { m with moles := fin.1, cached_heat_capacity := none }
  let into1 := { fin.2.1 with cached_heat_capacity := none }
  let q := heat_capacity heats into1
  (m1, q.2.set_temperature ((p.1 + fin.2.2) / q.1))

/-- `Mixture::temperature_share(sharer, conduction_coefficient)`: when the
temperature delta is worth considering and both capacities are above the
floor, move `heat = k·ΔT·(Ca·Cb/(Ca+Cb))`, flooring each new temperature at
`TCMB` and respecting immutability; always returns the sharer's final
temperature.  Result: (self, sharer, returned temperature). -/
def Mixture.temperature_share (heats : List ℚ) (m sharer : Mixture) (k : ℚ) :
    Mixture × Mixture × ℚ :=
  let delta := m.temperature - sharer.temperature
  if MINIMUM_TEMPERATURE_DELTA_TO_CONSIDER < |delta| then
    let p := heat_capacity heats m
    let q := heat_capacity heats sharer
    if MINIMUM_HEAT_CAPACITY < q.1 ∧ MINIMUM_HEAT_CAPACITY < p.1 then
      let heat := k * delta * (p.1 * q.1 / (p.1 + q.1))
      let m1 := if p.2.immutable then p.2
        else p.2.set_temperature (max (p.2.temperature - heat / p.1) TCMB)
      let sharer1 := if q.2.immutable then q.2
        else q.2.set_temperature (max (q.2.temperature + heat / q.1) TCMB)
      (m1, sharer1, sharer1.temperature)
    else (p.2, q.2, q.2.temperature)
  else (m, sharer, sharer.temperature)

/-- `Mixture::adjust_heat(heat)`: read the heat capacity, then set the
temperature from the adjusted energy. -/
def Mixture.adjust_heat (heats : List ℚ) (m : Mixture) (heatAmt : ℚ) : Mixture :=
  let p := heat_capacity heats m
  p.2.set_temperature ((p.1 * p.2.temperature + heatAmt) / p.1)

/-- The `_set_temperature_hook` of `lib.rs`, restricted to its finite-input
branch: floors the argument at 2.7 and stores through
`Mixture::set_temperature`. -/
def set_temperature_hook (m : Mixture) (v : ℚ) : Mixture :=
  m.set_temperature (max v (27 / 10))

/-- Modelled from the spec: the `Reaction` record of the reaction module,
which is not in the sources provided.  It carries an opaque identifier
(`get_id`), and a precondition made of a minimum temperature, a minimum
total mole count, and required per-gas minimum amounts. -/
structure Reaction where
  id : ℕ
  min_temp : ℚ
  min_moles : ℚ
  required : List (ℕ × ℚ)
deriving DecidableEq

/-- Modelled from the spec: `Reaction::check_conditions(mixture)` holds when
`min_temp ≤ T`, `min_total_moles ≤ total_moles`, and every required
`(gas_id, min_moles)` pair has `get_moles(gas_id) ≥ min_moles`. -/
def Reaction.check_conditions (r : Reaction) (m : Mixture) : Bool :=
  decide (r.min_temp ≤ m.temperature) &&
    decide (r.min_moles ≤ m.total_moles) &&
    r.required.all fun p => decide (p.2 ≤ m.get_moles p.1)

/-- `Mixture::can_react_with_reactions`: the registry `BTreeMap` iterates
its values in ascending key order, so the source walks `values().rev()` —
highest priority first — asking whether any reaction's precondition holds.
The registry is modelled as its entry list, ascending by priority. -/
def Mixture.can_react_with_reactions (reactions : List (ℚ × Reaction))
    (m : Mixture) : Bool :=
  reactions.reverse.any fun p => p.2.check_conditions m

/-- `Mixture::all_reactable_with_slice`: walk `values().rev()` (descending
priority) and collect the identifiers of the reactions whose preconditions
hold. -/
def Mixture.all_reactable_with_slice (reactions : List (ℚ × Reaction))
    (m : Mixture) : List ℕ :=
  (reactions.reverse.filter fun p => p.2.check_conditions m).map fun p => p.2.id

/-- One slot of the `Arena` of `gas.rs`: the atomic `Index` next-free link
(`none` models `Index::invalid()`, i.e. a stored `usize` whose leading bit
is set) paired with the payload. -/
structure ArenaEntry (T : Type) where
  link : Option ℕ
  value : T
deriving DecidableEq

/-- The `Arena` of `gas.rs`: a vector of slots, the free-list head, and the
live count. -/
structure Arena (T : Type) where
  internal : List (ArenaEntry T)
  first_free_idx : Option ℕ
  len : ℕ
deriving DecidableEq

/-- `Arena::new()`. -/
def Arena.new {T : Type} : Arena T := ⟨[], none, 0⟩

/-- `Arena::get(idx)`: `Some` exactly when the index is within the vector
and the slot's link is the invalid sentinel. -/
def Arena.get {T : Type} (a : Arena T) (idx : ℕ) : Option T :=
  match a.internal.get? idx with
  | none => none
  | some e =>
    match e.link with
    | none => some e.value
    | some _ => none

/-- `Arena::slow_push(value)`: append a slot with an invalid link; the live
count becomes the new vector length. -/
def Arena.slow_push {T : Type} (a : Arena T) (v : T) : Arena T × ℕ :=
  ({ a with internal := a.internal ++ [⟨none, v⟩]
            len := a.internal.length + 1 },
    a.internal.length)

/-- `Arena::push_with(f, g)`: pop the free-list head and update it in place
with `g` — note that the source never resets the popped slot's own link —
or fall back to `slow_push(f())`.  Returns the arena and the index. -/
def Arena.push_with {T : Type} (a : Arena T) (f : T) (g : T → T) : Arena T × ℕ :=
  match a.first_free_idx with
  | some idx =>
    match a.internal.get? idx with
    | some e =>
      ({ a with internal := a.internal.set idx ⟨e.link, g e.value⟩
                first_free_idx := e.link
                len := a.len + 1 },
        idx)
    | none => (a, idx)
  | none => a.slow_push f

/-- `Arena::remove_unsafe(idx)` (and `Arena::remove`): copy the current
free-list head into the slot's link, point the head at the slot, and
decrement the live count. -/
def Arena.remove {T : Type} (a : Arena T) (idx : ℕ) : Arena T :=
  match a.internal.get? idx with
  | some e =>
    { a with internal := a.internal.set idx ⟨a.first_free_idx, e.value⟩
             first_free_idx := some idx
             len := a.len - 1 }
  | none => a

/-- The sequence of slot indices on which `GasMixtures::with_gas_mixtures_mut`
acquires write locks: Rust evaluates the two argument expressions of the
closure call left to right, so the `src` slot's lock is taken first and the
`arg` slot's second; when the handles coincide a single lock is taken and
the closure receives a clone. -/
def lockOrder (src arg : ℕ) : List ℕ :=
  if src = arg then [src] else [src, arg]

section GenericListLemmas

lemma get?_concat_length {α : Type} : ∀ (l : List α) (x : α),
    (l ++ [x]).get? l.length = some x
  | [], _ => rfl
  | _ :: l, x => get?_concat_length l x

lemma get?_set_self {α : Type} : ∀ (l : List α) (i : ℕ) (x : α), i < l.length →
    (l.set i x).get? i = some x
  | [], i, _, hi => absurd hi (by simp)
  | _ :: _, 0, _, _ => rfl
  | _ :: l, i + 1, x, hi => get?_set_self l i x (Nat.lt_of_succ_lt_succ hi)

lemma get?_lt_length {α : Type} : ∀ (l : List α) (i : ℕ) (x : α),
    l.get? i = some x → i < l.length
  | [], i, _, hget => by cases i <;> exact Option.noConfusion hget
  | _ :: _, 0, _, _ => Nat.succ_pos _
  | _ :: l, i + 1, x, hget => Nat.succ_lt_succ (get?_lt_length l i x hget)

end GenericListLemmas

section ListLemmas

lemma getD_nil (i : ℕ) : ([] : List ℚ).getD i 0 = 0 := by cases i <;> rfl

lemma getD_cons_zero (a : ℚ) (l : List ℚ) : (a :: l).getD 0 0 = a := rfl

lemma getD_cons_succ (a : ℚ) (l : List ℚ) (i : ℕ) :
    (a :: l).getD (i + 1) 0 = l.getD i 0 := rfl

lemma getD_of_length_le : ∀ (l : List ℚ) (i : ℕ), l.length ≤ i → l.getD i 0 = 0
  | [], i, _ => getD_nil i
  | _ :: l, i + 1, h =>
    getD_of_length_le l i (Nat.le_of_succ_le_succ h)

lemma getD_append_left : ∀ (l₁ l₂ : List ℚ) (i : ℕ), i < l₁.length →
    (l₁ ++ l₂).getD i 0 = l₁.getD i 0
  | a :: l₁, l₂, 0, _ => rfl
  | a :: l₁, l₂, i + 1, h =>
    getD_append_left l₁ l₂ i (Nat.lt_of_succ_lt_succ h)

lemma getD_replicate_zero : ∀ (k i : ℕ), (List.replicate k (0 : ℚ)).getD i 0 = 0
  | 0, i => getD_nil i
  | k + 1, 0 => rfl
  | k + 1, i + 1 => getD_replicate_zero k i

lemma getD_ge_append_rep : ∀ (l : List ℚ) (k i : ℕ), l.length ≤ i →
    (l ++ List.replicate k (0 : ℚ)).getD i 0 = 0
  | [], k, i, _ => getD_replicate_zero k i
  | a :: l, k, 0, h => absurd h (by simp)
  | a :: l, k, i + 1, h => getD_ge_append_rep l k i (Nat.le_of_succ_le_succ h)

lemma getD_append_replicate_zero (l : List ℚ) (k i : ℕ) :
    (l ++ List.replicate k (0 : ℚ)).getD i 0 = l.getD i 0 := by
  rcases Nat.lt_or_ge i l.length with h | h
  · exact getD_append_left l _ i h
  · rw [getD_of_length_le l i h, getD_ge_append_rep l k i h]

lemma expand_getD (xs : List ℚ) (n i : ℕ) : (expand xs n).getD i 0 = xs.getD i 0 := by
  unfold expand
  split
  · exact getD_append_replicate_zero xs _ i
  · rfl

lemma expand_length_ge (xs : List ℚ) (n : ℕ) : n ≤ (expand xs n).length := by
  unfold expand
  split
  · simp
    omega
  · omega

lemma expand_length_ge_self (xs : List ℚ) (n : ℕ) :
    xs.length ≤ (expand xs n).length := by
  unfold expand
  split
  · simp
  · omega

lemma addMoles_getD : ∀ (ys xs : List ℚ), ys.length ≤ xs.length → ∀ i : ℕ,
    (addMoles xs ys).getD i 0 = xs.getD i 0 + ys.getD i 0
  | [], xs, _, i => by simp [addMoles, getD_nil]
  | y :: ys, [], h, i => by simp at h
  | y :: ys, x :: xs, h, 0 => rfl
  | y :: ys, x :: xs, h, i + 1 => by
    simpa [addMoles, getD_cons_succ] using
      addMoles_getD ys xs (Nat.le_of_succ_le_succ h) i

lemma getD_map_mul : ∀ (xs : List ℚ) (r : ℚ) (i : ℕ),
    (xs.map fun a => a * r).getD i 0 = xs.getD i 0 * r
  | [], r, i => by simp [getD_nil]
  | x :: xs, r, 0 => rfl
  | x :: xs, r, i + 1 => getD_map_mul xs r i

lemma getD_set_self : ∀ (l : List ℚ) (i : ℕ) (a : ℚ), i < l.length →
    (l.set i a).getD i 0 = a
  | x :: l, 0, a, _ => rfl
  | x :: l, i + 1, a, h => getD_set_self l i a (Nat.lt_of_succ_lt_succ h)

lemma getD_take_lt : ∀ (l : List ℚ) (n i : ℕ), i < n →
    (l.take n).getD i 0 = l.getD i 0
  | [], n, i, _ => by simp [getD_nil]
  | x :: l, n + 1, 0, _ => rfl
  | x :: l, n + 1, i + 1, h =>
    getD_take_lt l n i (Nat.lt_of_succ_lt_succ h)

lemma lastValidAux_ge_acc : ∀ (xs : List ℚ) (j acc : ℕ), acc ≤ j →
    acc ≤ lastValidAux j acc xs
  | [], _, _, _ => le_refl _
  | a :: xs, j, acc, h => by
    unfold lastValidAux
    split
    · exact le_trans h (lastValidAux_ge_acc xs (j + 1) j (Nat.le_succ j))
    · exact lastValidAux_ge_acc xs (j + 1) acc (le_trans h (Nat.le_succ j))

lemma lastValidAux_ge_hit : ∀ (xs : List ℚ) (j acc i : ℕ), acc ≤ j →
    i < xs.length → GAS_MIN_MOLES < xs.getD i 0 →
    j + i ≤ lastValidAux j acc xs
  | [], _, _, i, _, hi, _ => by simp at hi
  | a :: xs, j, acc, 0, hacc, _, hG => by
    unfold lastValidAux
    rw [getD_cons_zero] at hG
    rw [if_pos hG]
    simpa using lastValidAux_ge_acc xs (j + 1) j (Nat.le_succ j)
  | a :: xs, j, acc, i + 1, hacc, hi, hG => by
    unfold lastValidAux
    rw [getD_cons_succ] at hG
    have h1 : (if GAS_MIN_MOLES < a then j else acc) ≤ j + 1 := by
      split <;> omega
    have := lastValidAux_ge_hit xs (j + 1) (if GAS_MIN_MOLES < a then j else acc)
      i h1 (Nat.lt_of_succ_lt_succ hi) hG
    omega

lemma gcList_getD (xs : List ℚ) (i : ℕ) :
    (gcList xs).getD i 0 = zeroSmall (xs.getD i 0) := by
  unfold gcList
  rcases Nat.lt_or_ge i xs.length with hi | hi
  · by_cases hG : GAS_MIN_MOLES < xs.getD i 0
    · have hlast : i < lastValidAux 0 0 xs + 1 := by
        have := lastValidAux_ge_hit xs 0 0 i (le_refl 0) hi hG
        omega
      rw [getD_take_lt _ _ _ hlast]
      clear hlast hG
      induction xs generalizing i with
      | nil => simp [getD_nil, zeroSmall]
      | cons a l ih =>
        cases i with
        | zero => rfl
        | succ i => exact ih i (Nat.lt_of_succ_lt_succ hi)
    · rcases Nat.lt_or_ge i ((xs.map zeroSmall).take (lastValidAux 0 0 xs + 1)).length
        with h | h
      · have h2 : i < (lastValidAux 0 0 xs + 1) := by
          simp [List.length_take] at h
          omega
        rw [getD_take_lt _ _ _ h2]
        have : ∀ (l : List ℚ) (i : ℕ), (l.map zeroSmall).getD i 0 = zeroSmall (l.getD i 0) := by
          intro l
          induction l with
          | nil => intro i; simp [getD_nil, zeroSmall]
          | cons a l ih =>
            intro i
            cases i with
            | zero => rfl
            | succ i => exact ih i
        rw [this]
      · rw [getD_of_length_le _ _ h, zeroSmall, if_neg hG]
  · rw [getD_of_length_le xs i hi]
    have hz : zeroSmall (0 : ℚ) = 0 := by
      unfold zeroSmall GAS_MIN_MOLES
      norm_num
    rw [hz]
    apply getD_of_length_le
    calc ((xs.map zeroSmall).take (lastValidAux 0 0 xs + 1)).length
        ≤ (xs.map zeroSmall).length := by simp [List.length_take]
      _ = xs.length := by simp
      _ ≤ i := hi

lemma dot_nil_right (xs : List ℚ) : dot xs [] = 0 := by
  cases xs <;> rfl

lemma dot_cons_cons (x c : ℚ) (xs h : List ℚ) :
    dot (x :: xs) (c :: h) = x * c + dot xs h := by
  simp [dot]

lemma dot_replicate_zero : ∀ (k : ℕ) (h : List ℚ), dot (List.replicate k 0) h = 0
  | 0, _ => by simp [dot]
  | k + 1, [] => dot_nil_right _
  | k + 1, c :: h => by
    rw [List.replicate_succ, dot_cons_cons, dot_replicate_zero k h]
    ring

lemma dot_append_replicate_zero : ∀ (xs : List ℚ) (k : ℕ) (h : List ℚ),
    dot (xs ++ List.replicate k 0) h = dot xs h
  | [], k, h => by simpa using dot_replicate_zero k h
  | x :: xs, k, [] => by rw [dot_nil_right, dot_nil_right]
  | x :: xs, k, c :: h => by
    rw [List.cons_append, dot_cons_cons, dot_cons_cons,
      dot_append_replicate_zero xs k h]

lemma dot_expand (xs : List ℚ) (n : ℕ) (h : List ℚ) :
    dot (expand xs n) h = dot xs h := by
  unfold expand
  split
  · exact dot_append_replicate_zero xs _ h
  · rfl

lemma dot_addMoles : ∀ (ys xs h : List ℚ), ys.length ≤ xs.length →
    dot (addMoles xs ys) h = dot xs h + dot ys h
  | [], xs, h, _ => by simp [addMoles, dot]
  | y :: ys, [], h, hl => by simp at hl
  | y :: ys, x :: xs, [], hl => by
    rw [dot_nil_right, dot_nil_right, dot_nil_right]
    ring
  | y :: ys, x :: xs, c :: h, hl => by
    show dot ((x + y) :: addMoles xs ys) (c :: h) = _
    rw [dot_cons_cons, dot_cons_cons, dot_cons_cons,
      dot_addMoles ys xs h (Nat.le_of_succ_le_succ hl)]
    ring

end ListLemmas

section MixtureLemmas

lemma set_temperature_moles (m : Mixture) (t : ℚ) :
    (m.set_temperature t).moles = m.moles := by
  unfold Mixture.set_temperature
  split <;> rfl

lemma set_temperature_volume (m : Mixture) (t : ℚ) :
    (m.set_temperature t).volume = m.volume := by
  unfold Mixture.set_temperature
  split <;> rfl

lemma set_temperature_min_heat (m : Mixture) (t : ℚ) :
    (m.set_temperature t).min_heat_capacity = m.min_heat_capacity := by
  unfold Mixture.set_temperature
  split <;> rfl

lemma set_temperature_cached (m : Mixture) (t : ℚ) :
    (m.set_temperature t).cached_heat_capacity = m.cached_heat_capacity := by
  unfold Mixture.set_temperature
  split <;> rfl

lemma set_temperature_immutable (m : Mixture) (t : ℚ) :
    (m.set_temperature t).immutable = m.immutable := by
  unfold Mixture.set_temperature
  split <;> rfl

lemma set_temperature_of_mutable (m : Mixture) (t : ℚ) (hm : m.immutable = false)
    (ht : isNormal t = true) : (m.set_temperature t).temperature = t := by
  unfold Mixture.set_temperature
  rw [if_pos (by simp [hm, ht])]

lemma hc_snd_temperature (heats : List ℚ) (m : Mixture) :
    (heat_capacity heats m).2.temperature = m.temperature := by
  unfold heat_capacity
  cases m.cached_heat_capacity <;> rfl

lemma hc_snd_moles (heats : List ℚ) (m : Mixture) :
    (heat_capacity heats m).2.moles = m.moles := by
  unfold heat_capacity
  cases m.cached_heat_capacity <;> rfl

lemma hc_snd_volume (heats : List ℚ) (m : Mixture) :
    (heat_capacity heats m).2.volume = m.volume := by
  unfold heat_capacity
  cases m.cached_heat_capacity <;> rfl

lemma hc_snd_min_heat (heats : List ℚ) (m : Mixture) :
    (heat_capacity heats m).2.min_heat_capacity = m.min_heat_capacity := by
  unfold heat_capacity
  cases m.cached_heat_capacity <;> rfl

lemma hc_snd_immutable (heats : List ℚ) (m : Mixture) :
    (heat_capacity heats m).2.immutable = m.immutable := by
  unfold heat_capacity
  cases m.cached_heat_capacity <;> rfl

lemma hc_snd_eq (heats : List ℚ) (m : Mixture) :
    (heat_capacity heats m).2 =
      { m with cached_heat_capacity := some (heat_capacity heats m).1 } := by
  cases m with
  | mk t v mh mo c imm => cases c <;> simp [heat_capacity]

lemma hc_fst_of_none (heats : List ℚ) (m : Mixture)
    (h : m.cached_heat_capacity = none) :
    (heat_capacity heats m).1 = slow_heat_capacity heats m := by
  simp [heat_capacity, h]

lemma hc_fst_of_some (heats : List ℚ) (m : Mixture) (v : ℚ)
    (h : m.cached_heat_capacity = some v) : (heat_capacity heats m).1 = v := by
  simp [heat_capacity, h]

lemma isNormal_max_floor (x : ℚ) : isNormal (max x (27 / 10)) = true := by
  unfold isNormal
  simp only [decide_eq_true_eq]
  have h1 : (27 / 10 : ℚ) ≤ max x (27 / 10) := le_max_right _ _
  have h2 : (0 : ℚ) < max x (27 / 10) := lt_of_lt_of_le (by norm_num) h1
  exact ne_of_gt h2

lemma isNormal_max_TCMB (x : ℚ) : isNormal (max x TCMB) = true := by
  rw [TCMB]
  exact isNormal_max_floor x

lemma merge_fst_moles (heats : List ℚ) (s g : Mixture) (hs : s.immutable = false) :
    (Mixture.merge heats s g).1.moles =
      addMoles (expand s.moles g.moles.length) g.moles := by
  simp [Mixture.merge, hs, apply_ite Mixture.moles, set_temperature_moles,
    hc_snd_moles]

lemma merge_fst_min_heat (heats : List ℚ) (s g : Mixture) (hs : s.immutable = false) :
    (Mixture.merge heats s g).1.min_heat_capacity = s.min_heat_capacity := by
  simp [Mixture.merge, hs, apply_ite Mixture.min_heat_capacity,
    set_temperature_min_heat, hc_snd_min_heat]

lemma merge_fst_cached (heats : List ℚ) (s g : Mixture) (hs : s.immutable = false) :
    (Mixture.merge heats s g).1.cached_heat_capacity =
      some ((heat_capacity heats s).1 + (heat_capacity heats g).1) := by
  simp [Mixture.merge, hs]

lemma merge_snd (heats : List ℚ) (s g : Mixture) (hs : s.immutable = false) :
    (Mixture.merge heats s g).2 = (heat_capacity heats g).2 := by
  simp [Mixture.merge, hs]

end MixtureLemmas

/-- C1 (amended).  Merge is additive into the receiver, not conservative:
for a mutable receiver, after `merge(self, giver)` every gas id of the
receiver reads the sum of the two pre-merge amounts, and the giver keeps
its moles, temperature, volume, minimum heat capacity and immutability
unchanged (only its interior-mutable heat-capacity cache may be filled by
the capacity read).  The summed quantity `moles(self, id) + moles(giver,
id)` therefore grows by the giver's amount rather than being conserved. -/
theorem merge_moles_additive (heats : List ℚ) (s g : Mixture)
    (hs : s.immutable = false) :
    (∀ i, (Mixture.merge heats s g).1.get_moles i =
        s.get_moles i + g.get_moles i) ∧
    (Mixture.merge heats s g).2.moles = g.moles ∧
    (Mixture.merge heats s g).2.temperature = g.temperature ∧
    (Mixture.merge heats s g).2.volume = g.volume ∧
    (Mixture.merge heats s g).2.min_heat_capacity = g.min_heat_capacity ∧
    (Mixture.merge heats s g).2.immutable = g.immutable := by
  refine ⟨fun i => ?_, ?_, ?_, ?_, ?_, ?_⟩
  · rw [Mixture.get_moles, merge_fst_moles heats s g hs,
      addMoles_getD g.moles _ (expand_length_ge s.moles g.moles.length) i,
      expand_getD]
    rfl
  · rw [merge_snd heats s g hs, hc_snd_moles]
  · rw [merge_snd heats s g hs, hc_snd_temperature]
  · rw [merge_snd heats s g hs, hc_snd_volume]
  · rw [merge_snd heats s g hs, hc_snd_min_heat]
  · rw [merge_snd heats s g hs, hc_snd_immutable]

/-- C1 counterexample.  With one gas of specific heat 20, merging a giver
holding 1 mole into an empty mutable receiver leaves the giver's mole in
place and adds it to the receiver, so the sum over the pair doubles instead
of being conserved. -/
theorem merge_conservation_counterexample :
    ¬ ((Mixture.merge [20] Mixture.new
          { Mixture.new with moles := [1] }).1.get_moles 0 +
        (Mixture.merge [20] Mixture.new
          { Mixture.new with moles := [1] }).2.get_moles 0 =
        Mixture.new.get_moles 0 +
        ({ Mixture.new with moles := [1] } : Mixture).get_moles 0) := by
  rw [Mixture.get_moles, Mixture.get_moles, Mixture.get_moles, Mixture.get_moles,
    merge_fst_moles _ _ _ rfl, merge_snd _ _ _ rfl, hc_snd_moles]
  norm_num [Mixture.new, expand, addMoles]

/-- C1 witness: the amended merge law evaluated on concrete mixtures with
3 and 4 moles of gas 0. -/
theorem merge_moles_additive_witness :
    (Mixture.merge [20] { Mixture.new with moles := [3] }
        { Mixture.new with moles := [4] }).1.get_moles 0 =
      ({ Mixture.new with moles := [3] } : Mixture).get_moles 0 +
        ({ Mixture.new with moles := [4] } : Mixture).get_moles 0 :=
  (merge_moles_additive [20] _ _ rfl).1 0

/-- C2 (amended).  On an immutable mixture, `set_temperature`, `set_moles`,
`adjust_moles`, `adjust_multi`, `clear`, `multiply`, `merge` and `copy_from`
are exact no-ops; `adjust_heat` changes nothing except that its heat-capacity
read may fill the interior-mutable cache with the computed capacity; but
`set_min_heat_capacity` and the `set_volume` hook carry no immutability
guard and overwrite their fields even on an immutable mixture. -/
theorem immutable_mutators (heats : List ℚ) (n : ℕ) (x g smp : Mixture)
    (t a k q c v : ℚ) (i : ℕ) (adjs : List (ℕ × ℚ)) (hx : x.immutable = true) :
    x.set_temperature t = x ∧
    Mixture.set_moles n x i a = x ∧
    Mixture.adjust_moles n x i a = x ∧
    Mixture.adjust_multi n x adjs = x ∧
    x.clear = x ∧
    x.multiply k = x ∧
    (Mixture.merge heats x g).1 = x ∧
    x.copy_from_mutable smp = x ∧
    Mixture.adjust_heat heats x q =
      { x with cached_heat_capacity := some (heat_capacity heats x).1 } ∧
    x.set_min_heat_capacity c = { x with min_heat_capacity := c } ∧
    x.set_volume v = { x with volume := v } := by
  refine ⟨?_, ?_, ?_, ?_, ?_, ?_, ?_, ?_, ?_, rfl, rfl⟩
  · simp [Mixture.set_temperature, hx]
  · simp [Mixture.set_moles, hx]
  · simp [Mixture.adjust_moles, hx]
  · simp [Mixture.adjust_multi, hx]
  · simp [Mixture.clear, hx]
  · simp [Mixture.multiply, hx]
  · simp [Mixture.merge, hx]
  · simp [Mixture.copy_from_mutable, hx]
  · rw [Mixture.adjust_heat, Mixture.set_temperature]
    rw [if_neg (by simp [hc_snd_immutable, hx])]
    exact hc_snd_eq heats x

/-- C2 counterexample.  `set_min_heat_capacity` mutates an immutable
mixture: the claim that every listed mutator is the identity on immutable
mixtures is false. -/
theorem immutable_mutators_counterexample :
    Mixture.set_min_heat_capacity ⟨300, 2500, 0, [], none, true⟩ 1 ≠
      (⟨300, 2500, 0, [], none, true⟩ : Mixture) := by
  norm_num [Mixture.set_min_heat_capacity, Mixture.mk.injEq]

/-- C2 witness: `clear` on a concrete immutable mixture is the identity. -/
theorem immutable_mutators_witness :
    Mixture.clear ⟨300, 2500, 0, [], none, true⟩ =
      (⟨300, 2500, 0, [], none, true⟩ : Mixture) :=
  (immutable_mutators [] 0 ⟨300, 2500, 0, [], none, true⟩ Mixture.new Mixture.new
    0 0 0 0 0 0 0 [] rfl).2.2.2.2.1

section RemoveRatioLemmas

lemma multiply_moles_of_mutable (m : Mixture) (k : ℚ) (hm : m.immutable = false) :
    (m.multiply k).moles = gcList (m.moles.map fun a => a * k) := by
  simp [Mixture.multiply, hm, Mixture.garbage_collect]

lemma multiply_temperature (m : Mixture) (k : ℚ) :
    (m.multiply k).temperature = m.temperature := by
  unfold Mixture.multiply Mixture.garbage_collect
  split <;> rfl

lemma copy_moles (m s : Mixture) (hm : m.immutable = false) :
    (m.copy_from_mutable s).moles = s.moles := by
  simp [Mixture.copy_from_mutable, hm]

lemma copy_temperature (m s : Mixture) (hm : m.immutable = false) :
    (m.copy_from_mutable s).temperature = s.temperature := by
  simp [Mixture.copy_from_mutable, hm]

lemma copy_immutable (m s : Mixture) :
    (m.copy_from_mutable s).immutable = m.immutable := by
  unfold Mixture.copy_from_mutable
  split <;> rfl

lemma zeroSmall_zero : zeroSmall 0 = 0 := by
  unfold zeroSmall GAS_MIN_MOLES
  norm_num

end RemoveRatioLemmas

/-- C3 (amended).  `remove_ratio_into(r, dest)` with a mutable `dest`: when
`r ≤ 0` it returns early and leaves both mixtures exactly unchanged (it does
not scale `dest` to the clamped `r = 0` state); when `0 < r`, with `r`
clamped above at 1, `dest` becomes the source's pre-state scaled by `r` and
then garbage-collected (entries not above `GAS_MIN_MOLES` read as zero) with
the temperature copied, an immutable source is untouched, and a mutable
source becomes its pre-state scaled by `1 − r` and garbage-collected; the
round-trip `moles(self) + moles(dest) = moles_pre(self)` holds for every
gas id whose two scaled shares both exceed `GAS_MIN_MOLES`, and for every id
the source holds no moles of. -/
theorem remove_ratio_into_split (s d : Mixture) (ratio : ℚ)
    (hd : d.immutable = false) :
    (ratio ≤ 0 → s.remove_ratio_into ratio d = (s, d)) ∧
    (0 < ratio →
      ((s.remove_ratio_into ratio d).2.moles =
          gcList (s.moles.map fun a => a * (if 1 ≤ ratio then 1 else ratio)) ∧
        (s.remove_ratio_into ratio d).2.temperature = s.temperature) ∧
      (s.immutable = true → (s.remove_ratio_into ratio d).1 = s) ∧
      (s.immutable = false →
        (s.remove_ratio_into ratio d).1.moles =
          gcList (s.moles.map fun a => a * (1 - (if 1 ≤ ratio then 1 else ratio))) ∧
        (s.remove_ratio_into ratio d).1.temperature = s.temperature ∧
        ∀ i, (GAS_MIN_MOLES < s.get_moles i * (if 1 ≤ ratio then 1 else ratio) ∧
              GAS_MIN_MOLES <
                s.get_moles i * (1 - (if 1 ≤ ratio then 1 else ratio))) ∨
            s.get_moles i = 0 →
          (s.remove_ratio_into ratio d).1.get_moles i +
            (s.remove_ratio_into ratio d).2.get_moles i = s.get_moles i)) := by
  constructor
  · intro h
    unfold Mixture.remove_ratio_into
    rw [if_pos h]
  · intro h0
    have hr' : ¬ ratio ≤ 0 := not_le.mpr h0
    have hsnd : (s.remove_ratio_into ratio d).2 =
        (d.copy_from_mutable s).multiply (if 1 ≤ ratio then 1 else ratio) := by
      simp [Mixture.remove_ratio_into, hr']
    have hfst : (s.remove_ratio_into ratio d).1 =
        s.multiply (1 - (if 1 ≤ ratio then 1 else ratio)) := by
      simp [Mixture.remove_ratio_into, hr']
    have hdm : (d.copy_from_mutable s).immutable = false := by
      rw [copy_immutable]
      exact hd
    have hdestm : (s.remove_ratio_into ratio d).2.moles =
        gcList (s.moles.map fun a => a * (if 1 ≤ ratio then 1 else ratio)) := by
      rw [hsnd, multiply_moles_of_mutable _ _ hdm, copy_moles _ _ hd]
    refine ⟨⟨hdestm, ?_⟩, fun hsi => ?_, fun hsm => ⟨?_, ?_, fun i hcase => ?_⟩⟩
    · rw [hsnd, multiply_temperature, copy_temperature _ _ hd]
    · rw [hfst, Mixture.multiply, if_pos hsi]
    · rw [hfst, multiply_moles_of_mutable _ _ hsm]
    · rw [hfst, multiply_temperature]
    · have hself : (s.remove_ratio_into ratio d).1.get_moles i =
          zeroSmall (s.get_moles i * (1 - (if 1 ≤ ratio then 1 else ratio))) := by
        rw [Mixture.get_moles, hfst, multiply_moles_of_mutable _ _ hsm,
          gcList_getD, getD_map_mul]
        rfl
      have hdest : (s.remove_ratio_into ratio d).2.get_moles i =
          zeroSmall (s.get_moles i * (if 1 ≤ ratio then 1 else ratio)) := by
        rw [Mixture.get_moles, hdestm, gcList_getD, getD_map_mul]
        rfl
      rw [hself, hdest]
      rcases hcase with ⟨h1, h2⟩ | hz
      · rw [zeroSmall, if_pos h2, zeroSmall, if_pos h1]
        ring
      · rw [hz]
        simp [zeroSmall_zero]

/-- C3 counterexample.  With `r = 0` the early return leaves a nonempty
destination untouched instead of producing the source scaled by the clamped
ratio, and with `r = 1/2` on a source holding `1.5·GAS_MIN_MOLES` of gas 0
both scaled halves are garbage-collected to zero, so the claimed exact
round-trip sum fails. -/
theorem remove_ratio_into_counterexample :
    ((Mixture.new.remove_ratio_into 0
        { Mixture.new with moles := [5] }).2.get_moles 0 ≠
      Mixture.new.get_moles 0 * 0) ∧
    ((({ Mixture.new with moles := [3 * GAS_MIN_MOLES / 2] } : Mixture).remove_ratio_into
          (1 / 2) Mixture.new).1.get_moles 0 +
        (({ Mixture.new with moles := [3 * GAS_MIN_MOLES / 2] } : Mixture).remove_ratio_into
          (1 / 2) Mixture.new).2.get_moles 0 ≠
      ({ Mixture.new with moles := [3 * GAS_MIN_MOLES / 2] } : Mixture).get_moles 0) := by
  constructor
  · norm_num [Mixture.remove_ratio_into, Mixture.get_moles, Mixture.new]
  · norm_num [Mixture.remove_ratio_into, Mixture.get_moles, Mixture.new,
      Mixture.copy_from_mutable, Mixture.multiply, Mixture.garbage_collect,
      gcList, lastValidAux, zeroSmall, GAS_MIN_MOLES]

/-- C3 witness: the split law applied to a source with 22 and 82 moles and
an overlarge ratio 2 (clamped to 1). -/
theorem remove_ratio_into_split_witness :
    (({ Mixture.new with moles := [22, 82] } : Mixture).remove_ratio_into 2
        Mixture.new).2.temperature =
      ({ Mixture.new with moles := [22, 82] } : Mixture).temperature :=
  ((remove_ratio_into_split { Mixture.new with moles := [22, 82] }
      Mixture.new 2 rfl).2 (by decide)).1.2

section CacheLemmas

lemma slow_set_temperature (heats : List ℚ) (m : Mixture) (t : ℚ) :
    slow_heat_capacity heats (m.set_temperature t) = slow_heat_capacity heats m := by
  rw [slow_heat_capacity, slow_heat_capacity, set_temperature_moles,
    set_temperature_min_heat]

lemma hc_after_fill_and_set_temp (heats : List ℚ) (w : Mixture) (t : ℚ)
    (hw : w.cached_heat_capacity = none) :
    (heat_capacity heats ((heat_capacity heats w).2.set_temperature t)).1 =
      slow_heat_capacity heats ((heat_capacity heats w).2.set_temperature t) := by
  have hcache : ((heat_capacity heats w).2.set_temperature t).cached_heat_capacity =
      some (heat_capacity heats w).1 := by
    rw [set_temperature_cached, hc_snd_eq]
  rw [hc_fst_of_some _ _ _ hcache, hc_fst_of_none _ _ hw, slow_set_temperature]
  rw [slow_heat_capacity, slow_heat_capacity, hc_snd_moles, hc_snd_min_heat]

end CacheLemmas

/-- C4 (amended).  A heat-capacity read on an invalid cache recomputes the
fresh folded value, and `set_moles`, `adjust_moles`, `adjust_multi` (when
any adjustment applies), `clear`, `multiply` and `transfer_gases_to` leave
the cache invalid (the destination of `transfer_gases_to` is left with the
freshly recomputed value), so after those mole mutations the next
heat-capacity read is the fresh value; `merge`, however, installs the sum
of the two pre-merge capacities into the cache, which equals the fresh
value only when neither mixture's `min_heat_capacity` floor is active (it
can differ when a floor bites, as the counterexample shows). -/
theorem heat_capacity_cache_coherent (heats : List ℚ) (n i : ℕ) (m s g into : Mixture)
    (a k r : ℚ) (adjs : List (ℕ × ℚ)) (gases : List ℕ) :
    (m.cached_heat_capacity = none →
      (heat_capacity heats m).1 = slow_heat_capacity heats m) ∧
    (m.immutable = false → i < n →
      (i ≤ m.moles.length ∨ (GAS_MIN_MOLES < a ∧ isNormal a = true)) →
      (Mixture.set_moles n m i a).cached_heat_capacity = none) ∧
    (m.immutable = false → isNormal a = true → i < n →
      (Mixture.adjust_moles n m i a).cached_heat_capacity = none) ∧
    (m.immutable = false →
      (adjs.any fun p => decide (p.1 < n) && isNormal p.2) = true →
      (Mixture.adjust_multi n m adjs).cached_heat_capacity = none) ∧
    (m.immutable = false → m.clear.cached_heat_capacity = none) ∧
    (m.immutable = false → (m.multiply k).cached_heat_capacity = none) ∧
    (transfer_gases_to heats s into r gases).1.cached_heat_capacity = none ∧
    (heat_capacity heats (transfer_gases_to heats s into r gases).2).1 =
      slow_heat_capacity heats (transfer_gases_to heats s into r gases).2 ∧
    (s.immutable = false →
      (Mixture.merge heats s g).1.cached_heat_capacity =
        some ((heat_capacity heats s).1 + (heat_capacity heats g).1) ∧
      ((s.cached_heat_capacity = none ∨
          s.cached_heat_capacity = some (slow_heat_capacity heats s)) →
        (g.cached_heat_capacity = none ∨
          g.cached_heat_capacity = some (slow_heat_capacity heats g)) →
        s.min_heat_capacity ≤ dot s.moles heats →
        g.min_heat_capacity ≤ dot g.moles heats →
        0 ≤ dot g.moles heats →
        (heat_capacity heats (Mixture.merge heats s g).1).1 =
          slow_heat_capacity heats (Mixture.merge heats s g).1)) := by
  refine ⟨hc_fst_of_none heats m, ?_, ?_, ?_, ?_, ?_, rfl,
    hc_after_fill_and_set_temp heats _ _ rfl, fun hs => ⟨merge_fst_cached heats s g hs, ?_⟩⟩
  · intro hm hn hc
    have hcond : (!m.immutable && decide (i < n) &&
        (decide (i ≤ m.moles.length) ||
          (decide (GAS_MIN_MOLES < a) && isNormal a))) = true := by
      rcases hc with h | ⟨h1, h2⟩
      · simp [hm, hn, h]
      · simp [hm, hn, h1, h2]
    rw [Mixture.set_moles, if_pos hcond]
  · intro hm ha hn
    have hcond : (!m.immutable && isNormal a && decide (i < n)) = true := by
      simp [hm, ha, hn]
    rw [Mixture.adjust_moles, if_pos hcond]
  · intro hm hdirty
    rw [Mixture.adjust_multi, if_neg (by simp [hm])]
    simp only [Mixture.garbage_collect, apply_ite Mixture.cached_heat_capacity, hdirty]
    simp
  · intro hm
    rw [Mixture.clear, if_neg (by simp [hm])]
  · intro hm
    rw [Mixture.multiply, if_neg (by simp [hm])]
    rfl
  · intro hcos hcog hfs hfg hdg
    have hca : (heat_capacity heats s).1 = dot s.moles heats := by
      rcases hcos with h | h
      · rw [hc_fst_of_none _ _ h, slow_heat_capacity, max_eq_left hfs]
      · rw [hc_fst_of_some _ _ _ h, slow_heat_capacity, max_eq_left hfs]
    have hcb : (heat_capacity heats g).1 = dot g.moles heats := by
      rcases hcog with h | h
      · rw [hc_fst_of_none _ _ h, slow_heat_capacity, max_eq_left hfg]
      · rw [hc_fst_of_some _ _ _ h, slow_heat_capacity, max_eq_left hfg]
    rw [hc_fst_of_some _ _ _ (merge_fst_cached heats s g hs), hca, hcb,
      slow_heat_capacity, merge_fst_moles heats s g hs, merge_fst_min_heat heats s g hs,
      dot_addMoles g.moles _ heats (expand_length_ge s.moles g.moles.length),
      dot_expand]
    rw [max_eq_left (le_trans hfs (le_add_of_nonneg_right hdg))]

/-- C4 counterexample.  A receiver with `min_heat_capacity = 10` and no
moles merged with a giver holding 1 mole of a gas with specific heat 5:
merge caches `Ca + Cb = 10 + 5 = 15`, but the fresh recomputation of the
merged mixture is `max(10, 5) = 10`, so the next heat-capacity read after
this mole mutation is not the freshly recomputed value. -/
theorem cache_coherence_counterexample :
    (heat_capacity [5] (Mixture.merge [5] ⟨300, 2500, 10, [], none, false⟩
        ⟨300, 2500, 0, [1], none, false⟩).1).1 ≠
      slow_heat_capacity [5] (Mixture.merge [5] ⟨300, 2500, 10, [], none, false⟩
        ⟨300, 2500, 0, [1], none, false⟩).1 := by
  have hmolS : (⟨300, 2500, 10, [], none, false⟩ : Mixture).moles = [] := rfl
  have hmolG : (⟨300, 2500, 0, [1], none, false⟩ : Mixture).moles = [1] := rfl
  have hminS : (⟨300, 2500, 10, [], none, false⟩ : Mixture).min_heat_capacity = 10 := rfl
  have hminG : (⟨300, 2500, 0, [1], none, false⟩ : Mixture).min_heat_capacity = 0 := rfl
  have hB : dot ([] : List ℚ) [5] = 0 := rfl
  have hcs : (heat_capacity [5] (⟨300, 2500, 10, [], none, false⟩ : Mixture)).1 = 10 := by
    rw [hc_fst_of_none _ _ rfl, slow_heat_capacity, hmolS, hminS, hB]
    exact max_eq_right (by norm_num)
  have hcg : (heat_capacity [5] (⟨300, 2500, 0, [1], none, false⟩ : Mixture)).1 = 5 := by
    rw [hc_fst_of_none _ _ rfl, slow_heat_capacity, hmolG, hminG,
      dot_cons_cons, dot_nil_right,
      max_eq_left (show (0 : ℚ) ≤ 1 * 5 + 0 by norm_num)]
    norm_num
  have hA : dot (addMoles (expand ([] : List ℚ) [(1 : ℚ)].length) [1]) [5] = 5 := by
    have e1 : addMoles (expand ([] : List ℚ) [(1 : ℚ)].length) [1] = [0 + 1] := rfl
    rw [e1, dot_cons_cons, dot_nil_right]
    norm_num
  rw [hc_fst_of_some _ _ _ (merge_fst_cached _ _ _ rfl), hcs, hcg,
    slow_heat_capacity, merge_fst_moles _ _ _ rfl, merge_fst_min_heat _ _ _ rfl,
    hmolS, hmolG, hminS, hA,
    max_eq_right (show (5 : ℚ) ≤ 10 by norm_num)]
  norm_num

/-- C4 witness: `clear` on a mutable mixture with a stale cache leaves the
cache invalid, and a read on an invalid cache recomputes the fresh value. -/
theorem heat_capacity_cache_coherent_witness :
    (Mixture.clear ⟨300, 2500, 0, [7], some 99, false⟩).cached_heat_capacity = none ∧
    (heat_capacity [20] ⟨300, 2500, 0, [7], none, false⟩).1 =
      slow_heat_capacity [20] ⟨300, 2500, 0, [7], none, false⟩ :=
  ⟨(heat_capacity_cache_coherent [20] 1 0 ⟨300, 2500, 0, [7], some 99, false⟩
      Mixture.new Mixture.new Mixture.new 0 0 0 [] []).2.2.2.2.1 rfl,
    (heat_capacity_cache_coherent [20] 1 0 ⟨300, 2500, 0, [7], none, false⟩
      Mixture.new Mixture.new Mixture.new 0 0 0 [] []).1 rfl⟩

/-- C5 (amended).  What the arena actually guarantees: a lookup succeeds
exactly on slots whose stored link is the invalid sentinel.  An allocate
that appends a fresh slot yields a handle whose lookup succeeds; an
allocate that recycles the free-list head returns that index, but the
popped slot keeps its stored link (the source never resets it), so the
lookup succeeds only when that link was the invalid sentinel (i.e. the slot
was the free-list tail); a release writes the previous free-list head into
the slot's link, so lookups of a released handle fail when the free list
was non-empty but still succeed when it was empty. -/
theorem arena_liveness_characterisation {T : Type} (a : Arena T) (v : T)
    (g : T → T) (h idx : ℕ) (e : ArenaEntry T) :
    (a.first_free_idx = none →
      (a.push_with v g).1.get (a.push_with v g).2 = some v) ∧
    (a.first_free_idx = some idx → a.internal.get? idx = some e →
      (a.push_with v g).2 = idx ∧
      (a.push_with v g).1.get idx =
        (if e.link = none then some (g e.value) else none)) ∧
    (a.internal.get? h = some e → ∀ j, a.first_free_idx = some j →
      (a.remove h).get h = none) ∧
    (a.internal.get? h = some e → a.first_free_idx = none →
      (a.remove h).get h = some e.value) := by
  refine ⟨?_, ?_, ?_, ?_⟩
  · intro hff
    simp only [Arena.push_with, hff, Arena.slow_push, Arena.get]
    rw [get?_concat_length]
  · intro hff hge
    constructor
    · simp only [Arena.push_with, hff, hge]
    · simp only [Arena.push_with, hff, hge, Arena.get]
      rw [get?_set_self _ _ _ (get?_lt_length _ _ _ hge)]
      cases hl : e.link <;> simp [hl]
  · intro hge j hff
    simp only [Arena.remove, hge, hff, Arena.get]
    rw [get?_set_self _ _ _ (get?_lt_length _ _ _ hge)]
  · intro hge hff
    simp only [Arena.remove, hge, hff, Arena.get]
    rw [get?_set_self _ _ _ (get?_lt_length _ _ _ hge)]

/-- C5 counterexample.  Releasing the only slot while the free list is
empty leaves the slot looking live (`get` still succeeds), and recycling a
slot that had a successor on the free list returns a handle whose lookup
immediately fails — both directions of the claimed liveness contract are
violated. -/
theorem arena_liveness_counterexample :
    (((Arena.new : Arena ℕ).push_with 5 id).1.remove 0).get 0 = some 5 ∧
    ((((((Arena.new : Arena ℕ).push_with 1 id).1.push_with 2 id).1.remove 0).remove 1).push_with
        9 id).2 = 1 ∧
    ((((((Arena.new : Arena ℕ).push_with 1 id).1.push_with 2 id).1.remove 0).remove 1).push_with
        9 id).1.get 1 = none := by
  decide

/-- C5 witness: a fresh allocate on an empty arena yields a handle whose
lookup succeeds. -/
theorem arena_liveness_characterisation_witness :
    ((Arena.new : Arena ℕ).push_with 5 id).1.get
      ((Arena.new : Arena ℕ).push_with 5 id).2 = some 5 :=
  (arena_liveness_characterisation (Arena.new : Arena ℕ) 5 id 0 0 ⟨none, 0⟩).1 rfl

/-- C6 (confirmed).  `temperature_share(A, B, k)`: when the temperature
delta exceeds `MINIMUM_TEMPERATURE_DELTA_TO_CONSIDER` and both heat
capacities exceed `MINIMUM_HEAT_CAPACITY`, the transferred heat is
`q = k·(Ta−Tb)·(Ca·Cb/(Ca+Cb))`, A's temperature becomes
`max(TCMB, Ta − q/Ca)` when A is mutable (unchanged otherwise), B's becomes
`max(TCMB, Tb + q/Cb)` when B is mutable, and B's final temperature is
returned; otherwise both temperatures are unchanged and B's temperature is
returned. -/
theorem temperature_share_spec (heats : List ℚ) (a b : Mixture) (k : ℚ) :
    (MINIMUM_TEMPERATURE_DELTA_TO_CONSIDER < |a.temperature - b.temperature| →
      MINIMUM_HEAT_CAPACITY < (heat_capacity heats a).1 →
      MINIMUM_HEAT_CAPACITY < (heat_capacity heats b).1 →
      ((Mixture.temperature_share heats a b k).1.temperature =
        if a.immutable then a.temperature
        else max (a.temperature -
          k * (a.temperature - b.temperature) *
            ((heat_capacity heats a).1 * (heat_capacity heats b).1 /
              ((heat_capacity heats a).1 + (heat_capacity heats b).1)) /
          (heat_capacity heats a).1) TCMB) ∧
      ((Mixture.temperature_share heats a b k).2.1.temperature =
        if b.immutable then b.temperature
        else max (b.temperature +
          k * (a.temperature - b.temperature) *
            ((heat_capacity heats a).1 * (heat_capacity heats b).1 /
              ((heat_capacity heats a).1 + (heat_capacity heats b).1)) /
          (heat_capacity heats b).1) TCMB) ∧
      (Mixture.temperature_share heats a b k).2.2 =
        (Mixture.temperature_share heats a b k).2.1.temperature) ∧
    (¬ (MINIMUM_TEMPERATURE_DELTA_TO_CONSIDER < |a.temperature - b.temperature| ∧
        MINIMUM_HEAT_CAPACITY < (heat_capacity heats a).1 ∧
        MINIMUM_HEAT_CAPACITY < (heat_capacity heats b).1) →
      (Mixture.temperature_share heats a b k).1.temperature = a.temperature ∧
      (Mixture.temperature_share heats a b k).2.1.temperature = b.temperature ∧
      (Mixture.temperature_share heats a b k).2.2 = b.temperature) := by
  constructor
  · intro hδ hca hcb
    simp only [Mixture.temperature_share]
    rw [if_pos hδ, if_pos ⟨hcb, hca⟩]
    refine ⟨?_, ?_, rfl⟩
    · rw [apply_ite Mixture.temperature, hc_snd_immutable]
      by_cases him : a.immutable = true
      · rw [if_pos him, if_pos him, hc_snd_temperature]
      · have him' : a.immutable = false := by simpa using him
        rw [if_neg him, if_neg him,
          set_temperature_of_mutable _ _ (by rw [hc_snd_immutable]; exact him')
            (isNormal_max_TCMB _),
          hc_snd_temperature]
    · rw [apply_ite Mixture.temperature, hc_snd_immutable]
      by_cases him : b.immutable = true
      · rw [if_pos him, if_pos him, hc_snd_temperature]
      · have him' : b.immutable = false := by simpa using him
        rw [if_neg him, if_neg him,
          set_temperature_of_mutable _ _ (by rw [hc_snd_immutable]; exact him')
            (isNormal_max_TCMB _),
          hc_snd_temperature]
  · intro hneg
    by_cases hδ : MINIMUM_TEMPERATURE_DELTA_TO_CONSIDER < |a.temperature - b.temperature|
    · have hcap : ¬ (MINIMUM_HEAT_CAPACITY < (heat_capacity heats b).1 ∧
          MINIMUM_HEAT_CAPACITY < (heat_capacity heats a).1) := by
        intro hc
        exact hneg ⟨hδ, hc.2, hc.1⟩
      simp only [Mixture.temperature_share]
      rw [if_pos hδ, if_neg hcap]
      exact ⟨hc_snd_temperature heats a, hc_snd_temperature heats b,
        hc_snd_temperature heats b⟩
    · simp only [Mixture.temperature_share]
      rw [if_neg hδ]
      exact ⟨rfl, rfl, rfl⟩

/-- C6 witness: 1 mole of a gas with specific heat 20 at 400 K shares with
1 mole at 200 K under coefficient 0.4: the transferred heat is 800 J, so
the temperatures become 360 K and 240 K and 240 is returned. -/
theorem temperature_share_spec_witness :
    (Mixture.temperature_share [20] ⟨400, 2500, 0, [1], none, false⟩
        ⟨200, 2500, 0, [1], none, false⟩ (2 / 5)).1.temperature = 360 ∧
    (Mixture.temperature_share [20] ⟨400, 2500, 0, [1], none, false⟩
        ⟨200, 2500, 0, [1], none, false⟩ (2 / 5)).2.2 = 240 := by
  have hA20 : (heat_capacity [20] (⟨400, 2500, 0, [1], none, false⟩ : Mixture)).1 = 20 := by
    rw [hc_fst_of_none _ _ rfl, slow_heat_capacity,
      show (⟨400, 2500, 0, [1], none, false⟩ : Mixture).moles = [1] from rfl,
      show (⟨400, 2500, 0, [1], none, false⟩ : Mixture).min_heat_capacity = 0 from rfl,
      dot_cons_cons, dot_nil_right,
      max_eq_left (show (0 : ℚ) ≤ 1 * 20 + 0 by norm_num)]
    norm_num
  have hB20 : (heat_capacity [20] (⟨200, 2500, 0, [1], none, false⟩ : Mixture)).1 = 20 := by
    rw [hc_fst_of_none _ _ rfl, slow_heat_capacity,
      show (⟨200, 2500, 0, [1], none, false⟩ : Mixture).moles = [1] from rfl,
      show (⟨200, 2500, 0, [1], none, false⟩ : Mixture).min_heat_capacity = 0 from rfl,
      dot_cons_cons, dot_nil_right,
      max_eq_left (show (0 : ℚ) ≤ 1 * 20 + 0 by norm_num)]
    norm_num
  have hδ : MINIMUM_TEMPERATURE_DELTA_TO_CONSIDER <
      |(⟨400, 2500, 0, [1], none, false⟩ : Mixture).temperature -
        (⟨200, 2500, 0, [1], none, false⟩ : Mixture).temperature| := by
    rw [show (⟨400, 2500, 0, [1], none, false⟩ : Mixture).temperature = 400 from rfl,
      show (⟨200, 2500, 0, [1], none, false⟩ : Mixture).temperature = 200 from rfl,
      MINIMUM_TEMPERATURE_DELTA_TO_CONSIDER]
    norm_num
  have h := (temperature_share_spec [20] ⟨400, 2500, 0, [1], none, false⟩
    ⟨200, 2500, 0, [1], none, false⟩ (2 / 5)).1 hδ
    (by rw [hA20, MINIMUM_HEAT_CAPACITY]; norm_num)
    (by rw [hB20, MINIMUM_HEAT_CAPACITY]; norm_num)
  constructor
  · rw [h.1, if_neg (by simp), hA20, hB20,
      show (⟨400, 2500, 0, [1], none, false⟩ : Mixture).temperature = 400 from rfl,
      show (⟨200, 2500, 0, [1], none, false⟩ : Mixture).temperature = 200 from rfl,
      TCMB, max_eq_left (by norm_num)]
    norm_num
  · rw [h.2.2, h.2.1, if_neg (by simp), hA20, hB20,
      show (⟨400, 2500, 0, [1], none, false⟩ : Mixture).temperature = 400 from rfl,
      show (⟨200, 2500, 0, [1], none, false⟩ : Mixture).temperature = 200 from rfl,
      TCMB, max_eq_left (by norm_num)]
    norm_num

/-- C7 (confirmed, with the reaction precondition modelled from the spec).
Given the registry's `BTreeMap` invariant — entries strictly ascending by
priority — `all_reactable` walks the reversed entries, so the reactions it
selects are pairwise descending in priority, its output is exactly the
identifiers of the matching reactions in that order, an identifier is in
the output precisely when some registry entry matches with that identifier,
and `can_react` holds precisely when some entry matches. -/
theorem all_reactable_spec (rs : List (ℚ × Reaction)) (m : Mixture)
    (hrs : rs.Pairwise fun p q => p.1 < q.1) :
    ((rs.reverse.filter fun p => p.2.check_conditions m).Pairwise
      fun p q => q.1 < p.1) ∧
    Mixture.all_reactable_with_slice rs m =
      ((rs.reverse.filter fun p => p.2.check_conditions m).map fun p => p.2.id) ∧
    (∀ i, i ∈ Mixture.all_reactable_with_slice rs m ↔
      ∃ p, p ∈ rs ∧ p.2.check_conditions m = true ∧ p.2.id = i) ∧
    (Mixture.can_react_with_reactions rs m = true ↔
      ∃ p, p ∈ rs ∧ p.2.check_conditions m = true) := by
  refine ⟨?_, rfl, ?_, ?_⟩
  · have h1 : rs.reverse.Pairwise fun p q => q.1 < p.1 :=
      List.pairwise_reverse.mpr hrs
    exact List.Pairwise.sublist (List.filter_sublist _) h1
  · intro i
    simp only [Mixture.all_reactable_with_slice, List.mem_map, List.mem_filter,
      List.mem_reverse]
    constructor
    · rintro ⟨p, ⟨hp, hcheck⟩, hid⟩
      exact ⟨p, hp, hcheck, hid⟩
    · rintro ⟨p, hp, hcheck, hid⟩
      exact ⟨p, ⟨hp, hcheck⟩, hid⟩
  · simp only [Mixture.can_react_with_reactions, List.any_eq_true, List.mem_reverse]

/-- C7 witness: a registry with a low-priority reaction (id 3, needing 5
moles of gas 1) and a high-priority reaction (id 7, needing 100 K and 10
moles of gas 0), against a 293 K mixture holding 22 moles of gas 0: only
id 7 matches and it is returned. -/
theorem all_reactable_spec_witness :
    Mixture.all_reactable_with_slice
        [(1, ⟨3, 0, 0, [(1, 5)]⟩), (5, ⟨7, 100, 0, [(0, 10)]⟩)]
        ⟨293, 2500, 0, [22], none, false⟩ = [7] ∧
    Mixture.can_react_with_reactions
        [(1, ⟨3, 0, 0, [(1, 5)]⟩), (5, ⟨7, 100, 0, [(0, 10)]⟩)]
        ⟨293, 2500, 0, [22], none, false⟩ = true := by
  constructor
  · rw [(all_reactable_spec [(1, ⟨3, 0, 0, [(1, 5)]⟩), (5, ⟨7, 100, 0, [(0, 10)]⟩)]
      ⟨293, 2500, 0, [22], none, false⟩ (by norm_num)).2.1]
    norm_num [Reaction.check_conditions, Mixture.total_moles, Mixture.get_moles,
      getD_cons_zero, getD_cons_succ, getD_nil]
  · rw [(all_reactable_spec [(1, ⟨3, 0, 0, [(1, 5)]⟩), (5, ⟨7, 100, 0, [(0, 10)]⟩)]
      ⟨293, 2500, 0, [22], none, false⟩ (by norm_num)).2.2.2]
    refine ⟨(5, ⟨7, 100, 0, [(0, 10)]⟩), by norm_num, ?_⟩
    norm_num [Reaction.check_conditions, Mixture.total_moles, Mixture.get_moles,
      getD_cons_zero, getD_cons_succ, getD_nil]

/-- C8 (amended).  `set_moles(i, a)` on a mutable mixture assigns only when
`i < gas_count` and additionally `i ≤ moles.len()` or `a` is above
`GAS_MIN_MOLES` and normal; in that case it grows the vector to `i+1`
entries, assigns so that `get_moles(i)` returns `a`, and invalidates the
heat-capacity cache.  When `i ≥ gas_count` — and also when `i < gas_count`
but the index is strictly beyond the current length and the amount is small
or non-normal — the call is a silent no-op. -/
theorem set_moles_spec (n : ℕ) (m : Mixture) (i : ℕ) (a : ℚ)
    (hm : m.immutable = false) :
    (i < n → (i ≤ m.moles.length ∨ (GAS_MIN_MOLES < a ∧ isNormal a = true)) →
      Mixture.set_moles n m i a =
        { m with moles := (expand m.moles (i + 1)).set i a
                 cached_heat_capacity := none } ∧
      (Mixture.set_moles n m i a).get_moles i = a) ∧
    (n ≤ i → Mixture.set_moles n m i a = m) ∧
    (i < n → ¬ (i ≤ m.moles.length ∨ (GAS_MIN_MOLES < a ∧ isNormal a = true)) →
      Mixture.set_moles n m i a = m) := by
  refine ⟨?_, ?_, ?_⟩
  · intro hn hc
    have hcond : (!m.immutable && decide (i < n) &&
        (decide (i ≤ m.moles.length) ||
          (decide (GAS_MIN_MOLES < a) && isNormal a))) = true := by
      rcases hc with h | ⟨h1, h2⟩
      · simp [hm, hn, h]
      · simp [hm, hn, h1, h2]
    have heq : Mixture.set_moles n m i a =
        { m with moles := (expand m.moles (i + 1)).set i a
                 cached_heat_capacity := none } := by
      rw [Mixture.set_moles, if_pos hcond]
    refine ⟨heq, ?_⟩
    rw [heq]
    show ((expand m.moles (i + 1)).set i a).getD i 0 = a
    exact getD_set_self _ _ _ (Nat.lt_of_lt_of_le (Nat.lt_succ_self i)
      (expand_length_ge m.moles (i + 1)))
  · intro hn
    have hn' : ¬ i < n := Nat.not_lt.mpr hn
    rw [Mixture.set_moles, if_neg (by simp [hn'])]
  · intro hn hc
    rcases not_or.mp hc with ⟨h1, h2⟩
    have hcond : (!m.immutable && decide (i < n) &&
        (decide (i ≤ m.moles.length) ||
          (decide (GAS_MIN_MOLES < a) && isNormal a))) = false := by
      have h1' : decide (i ≤ m.moles.length) = false := decide_eq_false h1
      by_cases hg : GAS_MIN_MOLES < a
      · cases hni : isNormal a
        · simp [h1', hni]
        · exact absurd ⟨hg, hni⟩ h2
      · simp [h1', decide_eq_false hg]
    rw [Mixture.set_moles, if_neg (by simp [hcond])]

/-- C8 counterexample.  Gas count 2, a mutable mixture with an empty moles
vector: `set_moles(1, GAS_MIN_MOLES)` has `1 < gas_count` yet is a silent
no-op (the amount is not above `GAS_MIN_MOLES` and the index is beyond the
vector), so the subsequent `get_moles(1)` does not return the assigned
amount and the cache is not invalidated. -/
theorem set_moles_counterexample :
    Mixture.set_moles 2 ⟨300, 2500, 0, [], some 7, false⟩ 1 GAS_MIN_MOLES =
      (⟨300, 2500, 0, [], some 7, false⟩ : Mixture) ∧
    (Mixture.set_moles 2 ⟨300, 2500, 0, [], some 7, false⟩ 1
        GAS_MIN_MOLES).get_moles 1 ≠ GAS_MIN_MOLES := by
  have h0 : Mixture.set_moles 2 ⟨300, 2500, 0, [], some 7, false⟩ 1 GAS_MIN_MOLES =
      (⟨300, 2500, 0, [], some 7, false⟩ : Mixture) := by
    rw [Mixture.set_moles, if_neg (by simp)]
  refine ⟨h0, ?_⟩
  rw [h0]
  show ([] : List ℚ).getD 1 0 ≠ GAS_MIN_MOLES
  rw [getD_nil]
  norm_num [GAS_MIN_MOLES]

/-- C8 witness: within the assigning regime (index 1, current length 1,
amount 5), the amended postcondition holds and `get_moles` reads back 5. -/
theorem set_moles_spec_witness :
    (Mixture.set_moles 2 ⟨300, 2500, 0, [4], none, false⟩ 1 5).get_moles 1 = 5 :=
  ((set_moles_spec 2 ⟨300, 2500, 0, [4], none, false⟩ 1 5 rfl).1 (by decide)
    (Or.inl (by decide))).2

/-- C9 (amended).  `with_gas_mixtures_mut` acquires the two write locks in
argument order — the `src` slot's lock first, then the `arg` slot's — so
for distinct indices the acquisition order is ascending exactly when
`src < arg`; the source never sorts the pair. -/
theorem pair_lock_order (i j : ℕ) (hne : i ≠ j) :
    lockOrder i j = [i, j] ∧
    (List.Chain' (fun x y => x < y) (lockOrder i j) ↔ i < j) := by
  have h : lockOrder i j = [i, j] := by rw [lockOrder, if_neg hne]
  refine ⟨h, ?_⟩
  rw [h]
  simp [List.chain'_cons]

/-- C9 counterexample.  Handles `src = 2`, `arg = 1` are distinct, yet the
locks are acquired in the order `[2, 1]`, which is not ascending — the
claimed global ascending-order invariant does not hold. -/
theorem pair_lock_order_counterexample :
    (2 : ℕ) ≠ 1 ∧ ¬ List.Chain' (fun x y => x < y) (lockOrder 2 1) := by
  refine ⟨by decide, ?_⟩
  rw [show lockOrder 2 1 = [2, 1] from by rw [lockOrder, if_neg (by decide)]]
  simp [List.chain'_cons]

/-- C9 witness: for `src = 1 < arg = 2` the acquisition order is ascending. -/
theorem pair_lock_order_witness :
    List.Chain' (fun x y => x < y) (lockOrder 1 2) :=
  (pair_lock_order 1 2 (by decide)).2.mpr (by decide)

/-- C10 (amended).  The `set_temperature` entry point, on a finite numeric
argument, stores `max(T, 2.7)` when the mixture is mutable — so the
temperature observed afterwards is at least 2.7 K; on an immutable mixture
it reports no error but changes nothing, so a temperature below 2.7 K that
predates `mark_immutable` remains observable. -/
theorem set_temperature_hook_floor (m : Mixture) (v : ℚ) :
    (m.immutable = false →
      (set_temperature_hook m v).temperature = max v (27 / 10) ∧
      (27 / 10 : ℚ) ≤ (set_temperature_hook m v).temperature) ∧
    (m.immutable = true → set_temperature_hook m v = m) := by
  constructor
  · intro hm
    have ht : (set_temperature_hook m v).temperature = max v (27 / 10) := by
      rw [set_temperature_hook]
      exact set_temperature_of_mutable _ _ hm (isNormal_max_floor v)
    refine ⟨ht, ?_⟩
    rw [ht]
    exact le_max_right _ _
  · intro hm
    rw [set_temperature_hook, Mixture.set_temperature, if_neg (by simp [hm])]

/-- C10 counterexample.  An immutable mixture sitting at 1 K: the entry
point, called with 500, reports no error yet the observed temperature stays
1 K < 2.7 K, refuting the claim that every finite call leaves the observed
temperature at least 2.7 K. -/
theorem set_temperature_hook_counterexample :
    (set_temperature_hook ⟨1, 2500, 0, [], none, true⟩ 500).temperature < 27 / 10 := by
  rw [set_temperature_hook, Mixture.set_temperature, if_neg (by simp)]
  show (1 : ℚ) < 27 / 10
  norm_num

/-- C10 witness: on a fresh (mutable) mixture the stored temperature is
floored at 2.7 K. -/
theorem set_temperature_hook_floor_witness :
    (27 / 10 : ℚ) ≤ (set_temperature_hook Mixture.new 1).temperature :=
  ((set_temperature_hook_floor Mixture.new 1).1 rfl).2

